import Mathlib

/-!
Verification of the PubGrub-style version solver in rimraf-adi/zephyr
(package `solver`: satisfaction.go, unit_propagation.go,
conflict_resolution.go, and the solver/partial-solution/decision files).

The Go code is embedded shallowly: structs become structures, methods
become functions on an explicit `Solver` state, slices become lists, the
`changed` map of unit propagation becomes a duplicate-free list of keys
together with an oracle choosing which key Go's map iteration yields, and
the two unbounded loops (the conflict-resolution loop and the unit
propagation worklist loop) take a fuel parameter.  `int` becomes `Int`.
Go 1.22 per-iteration loop variables are assumed, so taking the address of
a range variable captures the value of the current iteration.
-/

namespace Zephyr

/-- Go struct `VersionConstraint` (part_012): a version range or specific
version, held as raw strings. -/
structure VersionConstraint where
  Min : String
  Max : String
  Specific : String
deriving DecidableEq

/-- Go method `VersionConstraint.IsSpecific`. -/
def VersionConstraint.IsSpecific (vc : VersionConstraint) : Bool :=
  vc.Specific != ""

/-- Go method `VersionConstraint.String`. -/
def VersionConstraint.str (vc : VersionConstraint) : String :=
  if vc.IsSpecific then vc.Specific
  else if vc.Min != "" && vc.Max != "" then ">=" ++ vc.Min ++ " <" ++ vc.Max
  else if vc.Min != "" then ">=" ++ vc.Min
  else if vc.Max != "" then "<" ++ vc.Max
  else "any"

/-- Go struct `Term` (part_012): a statement about a package. -/
structure Term where
  Package : String
  Version : VersionConstraint
  Negated : Bool
deriving DecidableEq

/-- Go struct `Incompatibility` (part_012): a set of terms that are not all
allowed to be true, with an optional pointer to a causing incompatibility.
The pointer becomes an `Option` of a nested inductive (the code only ever
builds acyclic cause chains). -/
inductive Incompatibility where
  | mk (Terms : List Term) (Cause : Option Incompatibility)

/-- Field accessor for `Incompatibility.Terms`. -/
def Incompatibility.Terms : Incompatibility → List Term
  | .mk t _ => t

/-- Field accessor for `Incompatibility.Cause`. -/
def Incompatibility.Cause : Incompatibility → Option Incompatibility
  | .mk _ c => c

/-- Go struct `Assignment` (part_012). -/
structure Assignment where
  Term : Term
  DecisionLevel : Int
  IsDecision : Bool
  Cause : Option Incompatibility

/-- Go struct `PartialSolution` (part_012): the ordered assignment trail. -/
structure PartialSolution where
  Assignments : List Assignment

/-- Go method `PartialSolution.AddAssignment`. -/
def PartialSolution.AddAssignment (ps : PartialSolution) (assignment : Assignment) :
    PartialSolution :=
  ⟨ps.Assignments ++ [assignment]⟩

/-- Go method `PartialSolution.GetDecisionLevel`: 0 on an empty trail,
otherwise the decision level of the last assignment. -/
def PartialSolution.GetDecisionLevel (ps : PartialSolution) : Int :=
  match ps.Assignments.getLast? with
  | none => 0
  | some a => a.DecisionLevel

/-- Go method `PartialSolution.Backtrack`: repeatedly drop the last
assignment while its decision level exceeds `level`, stopping at the first
assignment (from the end) whose level is at or below `level`. -/
def PartialSolution.Backtrack (ps : PartialSolution) (level : Int) : PartialSolution :=
  ⟨(ps.Assignments.reverse.dropWhile (fun a => decide (level < a.DecisionLevel))).reverse⟩

/-- Go enum `SatisfactionResult` (satisfaction.go). -/
inductive SatisfactionResult where
  | Inconclusive
  | Satisfied
  | Contradicted
deriving DecidableEq

export SatisfactionResult (Inconclusive Satisfied Contradicted)

/-- Go function `areCompatible` (satisfaction.go): returns `true` when either
constraint renders as "any", and (marked in the source as a simplified
implementation) also returns `true` otherwise. -/
def areCompatible (v1 v2 : VersionConstraint) : Bool :=
  if v1.str == "any" || v2.str == "any" then true
  else true

/-- Go function `satisfies` (satisfaction.go): `true` when either side
renders as "any", otherwise plain string equality of the renderings. -/
def satisfies (v1 v2 : VersionConstraint) : Bool :=
  if v2.str == "any" then true
  else if v1.str == "any" then true
  else v1.str == v2.str

/-- Go method `PartialSolution.Satisfies` (satisfaction.go): the first loop
looks for a contradicting assignment (both polarity branches run the same
`areCompatible` test), the second loop looks for a same-polarity assignment
whose constraint `satisfies` the term. -/
def PartialSolution.Satisfies (ps : PartialSolution) (term : Term) : SatisfactionResult :=
  if ps.Assignments.any (fun assignment =>
      assignment.Term.Package == term.Package &&
        (if assignment.Term.Negated != term.Negated then
          !(areCompatible assignment.Term.Version term.Version)
        else
          !(areCompatible assignment.Term.Version term.Version))) then
    Contradicted
  else if ps.Assignments.any (fun assignment =>
      assignment.Term.Package == term.Package &&
        assignment.Term.Negated == term.Negated &&
        satisfies assignment.Term.Version term.Version) then
    Satisfied
  else
    Inconclusive

/-- Go method `PartialSolution.SatisfiesIncompatibility` (satisfaction.go). -/
def PartialSolution.SatisfiesIncompatibility (ps : PartialSolution)
    (incompatibility : Incompatibility) : SatisfactionResult :=
  let satisfiedCount := incompatibility.Terms.countP (fun t => ps.Satisfies t == Satisfied)
  let contradictedCount := incompatibility.Terms.countP (fun t => ps.Satisfies t == Contradicted)
  if contradictedCount > 0 then Contradicted
  else if satisfiedCount == incompatibility.Terms.length then Satisfied
  else Inconclusive

/-- Go method `PartialSolution.AlmostSatisfies` (satisfaction.go): the loop
counts satisfied terms and remembers the first inconclusive term; the count
comparison `satisfiedCount == len(terms)-1` is over Go ints, hence `Int`. -/
def PartialSolution.AlmostSatisfies (ps : PartialSolution)
    (incompatibility : Incompatibility) : Option Term :=
  let satisfiedCount := incompatibility.Terms.countP (fun t => ps.Satisfies t == Satisfied)
  let unsatisfiedTerm := incompatibility.Terms.find? (fun t => ps.Satisfies t == Inconclusive)
  if (satisfiedCount : Int) == (incompatibility.Terms.length : Int) - 1 then
    unsatisfiedTerm
  else
    none

/-- Go struct `Solver` (part_014). -/
structure Solver where
  partialSolution : PartialSolution
  incompatibilities : List Incompatibility
  rootPackage : String
  rootVersion : String

/-- Go function `NewSolver` (part_014). -/
def NewSolver (rootPackage rootVersion : String) : Solver :=
  ⟨⟨[]⟩, [], rootPackage, rootVersion⟩

/-- Go method `Solver.isRootCause` (conflict_resolution.go): an
incompatibility with no terms, or with a single positive term naming the
root package. -/
def Solver.isRootCause (s : Solver) (incompatibility : Incompatibility) : Bool :=
  match incompatibility.Terms with
  | [] => true
  | [t] => t.Package == s.rootPackage && !t.Negated
  | _ => false

/-- Go method `Solver.assignmentSatisfiesIncompatibility`
(conflict_resolution.go): the source is a stub and returns constant
`false`. -/
def Solver.assignmentSatisfiesIncompatibility (_s : Solver) (_assignment : Assignment)
    (_incompatibility : Incompatibility) : Bool :=
  false

/-- Go method `Solver.findSatisfier` (conflict_resolution.go): scan the
trail newest-first for an assignment passing
`assignmentSatisfiesIncompatibility`. -/
def Solver.findSatisfier (s : Solver) (incompatibility : Incompatibility) : Option Assignment :=
  s.partialSolution.Assignments.reverse.find?
    (fun assignment => s.assignmentSatisfiesIncompatibility assignment incompatibility)

/-- Go method `Solver.findPreviousSatisfier` (conflict_resolution.go): the
source locates the satisfier by comparing the address of the range loop
variable with the pointer returned by `findSatisfier`; those are distinct
objects, so the index search always fails and the method returns nil. -/
def Solver.findPreviousSatisfier (_s : Solver) (_incompatibility : Incompatibility)
    (_satisfier : Assignment) : Option Assignment :=
  none

/-- Go method `Solver.getPreviousSatisfierLevel` (conflict_resolution.go). -/
def Solver.getPreviousSatisfierLevel (_s : Solver) (previousSatisfier : Option Assignment) :
    Int :=
  match previousSatisfier with
  | none => 1
  | some a => a.DecisionLevel

/-- Go method `Solver.determineBacktrackLevel` (conflict_resolution.go):
the source is marked simplified and always returns level 0. -/
def Solver.determineBacktrackLevel (_s : Solver) (_incompatibility : Incompatibility) : Int :=
  0

/-- Go method `Solver.backtrackFromConflict` (conflict_resolution.go). -/
def Solver.backtrackFromConflict (s : Solver) (incompatibility : Incompatibility) : Solver :=
  { s with partialSolution :=
      s.partialSolution.Backtrack (s.determineBacktrackLevel incompatibility) }

/-- Go method `Solver.createPriorCause` (conflict_resolution.go): append
all terms of the conflicting incompatibility, then the terms of the
satisfier's cause whose package differs from the satisfier's package; the
new incompatibility's cause is the old incompatibility. -/
def Solver.createPriorCause (_s : Solver) (incompatibility : Incompatibility)
    (satisfier : Assignment) : Incompatibility :=
  let mergedTerms := incompatibility.Terms ++
    (match satisfier.Cause with
     | none => []
     | some cause => cause.Terms.filter (fun term => term.Package != satisfier.Term.Package))
  .mk mergedTerms (some incompatibility)

/-- Go method `Solver.resolveConflict` (conflict_resolution.go), as a fuel
indexed loop.  Each iteration: return (after backtracking) when the
incompatibility is a root cause; fail when no satisfier exists; return
(after backtracking) when the satisfier is a decision or the previous
satisfier's level differs; otherwise continue with the prior cause.
Returning "some" carries the incompatibility together with the solver
state mutated by the backtrack. -/
def Solver.resolveConflictLoop : Nat → Solver → Incompatibility →
    Option (Incompatibility × Solver)
  | 0, _, _ => none
  | fuel + 1, s, incompatibility =>
    if s.isRootCause incompatibility then
      some (incompatibility, s.backtrackFromConflict incompatibility)
    else
      match s.findSatisfier incompatibility with
      | none => none
      | some satisfier =>
        let previousSatisfier := s.findPreviousSatisfier incompatibility satisfier
        let previousSatisfierLevel := s.getPreviousSatisfierLevel previousSatisfier
        if satisfier.IsDecision || previousSatisfierLevel != satisfier.DecisionLevel then
          some (incompatibility, s.backtrackFromConflict incompatibility)
        else
          Solver.resolveConflictLoop fuel s (s.createPriorCause incompatibility satisfier)

/-- Go's `resolveConflict` loop runs its body at most once: the satisfier
search is a constant-false stub, so the recursive branch is unreachable
and one unit of fuel suffices (`resolveConflictLoop_fuel`). -/
def Solver.resolveConflict (s : Solver) (incompatibility : Incompatibility) :
    Option (Incompatibility × Solver) :=
  Solver.resolveConflictLoop 1 s incompatibility

/-- Go struct `UnitPropagationResult` (unit_propagation.go). -/
structure UnitPropagationResult where
  Success : Bool
  Conflict : Option Incompatibility

/-- Go method `Solver.getIncompatibilitiesForPackage`
(unit_propagation.go): every stored incompatibility having a term on the
package, in store order. -/
def Solver.getIncompatibilitiesForPackage (s : Solver) (packageName : String) :
    List Incompatibility :=
  s.incompatibilities.filter
    (fun incompatibility => incompatibility.Terms.any (fun term => term.Package == packageName))

/-- Insertion into the `changed` map's key set: `changed[pkg] = true` adds
the key if absent; insertion order is kept for the model. -/
def insertChanged (changed : List String) (pkg : String) : List String :=
  if changed.contains pkg then changed else changed ++ [pkg]

/-- The inner for-loop of `Solver.UnitPropagation` (unit_propagation.go,
lines 26-82), walking one list of incompatibilities (already in
newest-first order).  Results: updated solver, updated `changed` key set,
and `some conflict` when version solving has failed (Go returns
`Success: false` from inside the loop).  Note the Satisfied branch does
not break out of the loop: after handling a conflict the scan proceeds
with the remaining incompatibilities. -/
def Solver.propagateScan : Solver → List String → List Incompatibility →
    Solver × List String × Option Incompatibility
  | s, changed, [] => (s, changed, none)
  | s, changed, incompatibility :: rest =>
    let result := s.partialSolution.SatisfiesIncompatibility incompatibility
    if result == Satisfied then
      match s.resolveConflict incompatibility with
      | none => (s, changed, some incompatibility)
      | some (resolvedIncompatibility, s1) =>
        match s1.partialSolution.AlmostSatisfies resolvedIncompatibility with
        | none => Solver.propagateScan s1 changed rest
        | some unsatisfiedTerm =>
          let negatedTerm : Term := { unsatisfiedTerm with Negated := !unsatisfiedTerm.Negated }
          let assignment : Assignment :=
            ⟨negatedTerm, s1.partialSolution.GetDecisionLevel, false,
              some resolvedIncompatibility⟩
          let s2 := { s1 with partialSolution := s1.partialSolution.AddAssignment assignment }
          Solver.propagateScan s2 [unsatisfiedTerm.Package] rest
    else if result == Inconclusive then
      match s.partialSolution.AlmostSatisfies incompatibility with
      | none => Solver.propagateScan s changed rest
      | some unsatisfiedTerm =>
        let negatedTerm : Term := { unsatisfiedTerm with Negated := !unsatisfiedTerm.Negated }
        let assignment : Assignment :=
          ⟨negatedTerm, s.partialSolution.GetDecisionLevel, false, some incompatibility⟩
        let s2 := { s with partialSolution := s.partialSolution.AddAssignment assignment }
        Solver.propagateScan s2 (insertChanged changed unsatisfiedTerm.Package) rest
    else
      Solver.propagateScan s changed rest

/-- The outer worklist loop of `Solver.UnitPropagation`.  `choose` is the
oracle standing for Go's unspecified map iteration order: at oracle step
`k` the key at index `choose k % changed.length` is removed.  Fuel bounds
the number of outer iterations; `none` in the second component means the
loop was still running when the fuel ran out. -/
def Solver.unitPropagationLoop (choose : Nat → Nat) :
    Nat → Nat → Solver → List String → Solver × Option UnitPropagationResult
  | 0, _, s, _ => (s, none)
  | fuel + 1, k, s, changed =>
    match changed with
    | [] => (s, some ⟨true, none⟩)
    | _ :: _ =>
      let idx := choose k % changed.length
      let currentPackage := changed.getD idx ""
      let changed1 := changed.eraseIdx idx
      let incompatibilities := s.getIncompatibilitiesForPackage currentPackage
      match s.propagateScan changed1 incompatibilities.reverse with
      | (s1, _, some conflict) => (s1, some ⟨false, some conflict⟩)
      | (s1, changed2, none) => Solver.unitPropagationLoop choose fuel (k + 1) s1 changed2

/-- Go method `Solver.UnitPropagation` (unit_propagation.go): start the
worklist with the given package. -/
def Solver.UnitPropagation (s : Solver) (choose : Nat → Nat) (fuel : Nat)
    (packageName : String) : Solver × Option UnitPropagationResult :=
  Solver.unitPropagationLoop choose fuel 0 s [packageName]

/-- Go struct `DecisionResult` (part_016). -/
structure DecisionResult where
  Success : Bool
  NextPackage : String
  Error : String

/-- Go method `Solver.findPackageForDecision` (part_016): first
non-decision positive assignment whose package has no decision yet;
empty string when there is none. -/
def Solver.findPackageForDecision (s : Solver) : String :=
  match s.partialSolution.Assignments.find? (fun assignment =>
      !assignment.IsDecision && !assignment.Term.Negated &&
        !(s.partialSolution.Assignments.any (fun other =>
            other.IsDecision && other.Term.Package == assignment.Term.Package))) with
  | none => ""
  | some assignment => assignment.Term.Package

/-- Go method `Solver.getTermForPackage` (part_016): the first term on the
trail for the package, if any. -/
def Solver.getTermForPackage (s : Solver) (packageName : String) : Option Term :=
  match s.partialSolution.Assignments.filter
      (fun assignment => assignment.Term.Package == packageName) with
  | [] => none
  | a :: _ => some a.Term

/-- Go method `Solver.findMatchingVersion` (part_016): the specific version
when the term has one, otherwise the dummy version "1.0.0". -/
def Solver.findMatchingVersion (_s : Solver) (_packageName : String) (term : Term) : String :=
  if term.Version.IsSpecific then term.Version.Specific
  else "1.0.0"

/-- Go method `Solver.addDependenciesForVersion` (part_016): appends the
hard-coded dummy incompatibility on package "dependency". -/
def Solver.addDependenciesForVersion (s : Solver) (packageName version : String) : Solver :=
  let dependency : Incompatibility :=
    .mk [⟨packageName, ⟨"", "", version⟩, false⟩, ⟨"dependency", ⟨"1.0.0", "", ""⟩, true⟩] none
  { s with incompatibilities := s.incompatibilities ++ [dependency] }

/-- Go method `Solver.DecisionMaking` (part_016). -/
def Solver.DecisionMaking (s : Solver) : Solver × DecisionResult :=
  let packageName := s.findPackageForDecision
  if packageName == "" then
    (s, ⟨true, "", ""⟩)
  else
    match s.getTermForPackage packageName with
    | none => (s, ⟨false, "", "no term found for package " ++ packageName⟩)
    | some term =>
      let version := s.findMatchingVersion packageName term
      if version == "" then
        let incompatibility : Incompatibility := .mk [term] none
        ({ s with incompatibilities := s.incompatibilities ++ [incompatibility] },
          ⟨false, packageName, ""⟩)
      else
        let s1 := s.addDependenciesForVersion packageName version
        let decisionTerm : Term := ⟨packageName, ⟨"", "", version⟩, false⟩
        let assignment : Assignment :=
          ⟨decisionTerm, s1.partialSolution.GetDecisionLevel + 1, true, none⟩
        ({ s1 with partialSolution := s1.partialSolution.AddAssignment assignment },
          ⟨false, packageName, ""⟩)

/-- Go method `Solver.addRootIncompatibilities` (part_014): appends the
hard-coded root incompatibility on the root term and package
"dependency". -/
def Solver.addRootIncompatibilities (s : Solver) : Solver :=
  let rootIncompatibility : Incompatibility :=
    .mk [⟨s.rootPackage, ⟨"", "", s.rootVersion⟩, false⟩,
         ⟨"dependency", ⟨"1.0.0", "", ""⟩, true⟩] none
  { s with incompatibilities := s.incompatibilities ++ [rootIncompatibility] }

/-- Go method `Solver.initializeRootPackage` (part_014): record the root
decision at level 0 and add the root incompatibilities. -/
def Solver.initializeRootPackage (s : Solver) : Solver :=
  let rootAssignment : Assignment :=
    ⟨⟨s.rootPackage, ⟨"", "", s.rootVersion⟩, false⟩, 0, true, none⟩
  Solver.addRootIncompatibilities
    { s with partialSolution := s.partialSolution.AddAssignment rootAssignment }

/-- The main loop of Go method `Solver.Solve` (part_014).  `choose iter`
is the map-iteration oracle used by the unit propagation of loop iteration
`iter`, `upFuel` bounds each unit propagation, `fuel` bounds the loop.
Second component: `none` when fuel ran out (either in the loop or inside a
unit propagation that was still running), `some none` for a solving
failure, `some (some ps)` for a found solution. -/
def Solver.solveLoop (choose : Nat → Nat → Nat) (upFuel : Nat) :
    Nat → Nat → Solver → String → Solver × Option (Option PartialSolution)
  | 0, _, s, _ => (s, none)
  | fuel + 1, iter, s, nextPackage =>
    match s.UnitPropagation (choose iter) upFuel nextPackage with
    | (s1, none) => (s1, none)
    | (s1, some result) =>
      if result.Success then
        match s1.DecisionMaking with
        | (s2, decisionResult) =>
          if decisionResult.Success then (s2, some (some s2.partialSolution))
          else if decisionResult.Error != "" then (s2, some none)
          else Solver.solveLoop choose upFuel fuel (iter + 1) s2 decisionResult.NextPackage
      else
        (s1, some none)

/-- Go method `Solver.Solve` (part_014): initialize the root package and
run the main loop starting from the root package. -/
def Solver.Solve (s : Solver) (choose : Nat → Nat → Nat) (upFuel fuel : Nat) :
    Solver × Option (Option PartialSolution) :=
  Solver.solveLoop choose upFuel fuel 0 s.initializeRootPackage s.rootPackage

/-! Definitions supporting the claims: a spec-side model for the term
relation, the no-matching-version branch condition of decision making, the
one-decision-per-package invariant, the closed form of the plain solve,
and the concrete scenarios used by the counterexamples. -/

/-- Follows the spec's words (§4.1), for comparison with the code: with
`Sacc` the accumulated positive version set of a package and `S` the set of
a positive term on it given as explicit finite version lists, the term is
Satisfied iff `Sacc ⊆ S`, Contradicted iff `Sacc` is disjoint from `S`,
Inconclusive otherwise.  A constraint `Specific v` denotes the singleton
list `[v]`. -/
def specPositiveRelation (Sacc S : List String) : SatisfactionResult :=
  if Sacc.all (fun v => S.contains v) then Satisfied
  else if Sacc.all (fun v => !(S.contains v)) then Contradicted
  else Inconclusive

/-- The path condition of the no-matching-version branch of
`Solver.DecisionMaking` (part_016 lines 34-41): a package was chosen, a
term was found, and `findMatchingVersion` returned the empty string. -/
def Solver.decisionNoMatchBranch (s : Solver) : Bool :=
  let packageName := s.findPackageForDecision
  if packageName == "" then false
  else
    match s.getTermForPackage packageName with
    | none => false
    | some term => s.findMatchingVersion packageName term == ""

/-- The invariant of claim C8: for every package, the trail carries at most
one decision assignment. -/
def AtMostOneDecision (ps : PartialSolution) : Prop :=
  ∀ p : String, ps.Assignments.countP (fun a => a.IsDecision && a.Term.Package == p) ≤ 1

/-- The negative "dependency" term of the hard-coded incompatibilities. -/
def dependencyTerm : Term := ⟨"dependency", ⟨"1.0.0", "", ""⟩, true⟩

/-- The hard-coded root incompatibility added by
`Solver.addRootIncompatibilities` for a given root package and version. -/
def rootIncOf (root rv : String) : Incompatibility :=
  .mk [⟨root, ⟨"", "", rv⟩, false⟩, dependencyTerm] none

/-- The root decision recorded by `Solver.initializeRootPackage`. -/
def rootAsgOf (root rv : String) : Assignment :=
  ⟨⟨root, ⟨"", "", rv⟩, false⟩, 0, true, none⟩

/-- The derivation on package "dependency" that unit propagation keeps
producing from the root incompatibility. -/
def depAsgOf (root rv : String) : Assignment :=
  ⟨⟨"dependency", ⟨"1.0.0", "", ""⟩, false⟩, 0, false, some (rootIncOf root rv)⟩

/-- Closed form of the states a plain solve (fresh solver, no
pre-registered incompatibilities) reaches: the root decision followed by
`n` copies of the "dependency" derivation. -/
def plainState (root rv : String) (n : Nat) : Solver :=
  ⟨⟨rootAsgOf root rv :: List.replicate n (depAsgOf root rv)⟩, [rootIncOf root rv], root, rv⟩

/-- Positive term `foo 1.0.0`, the root term of the scenario in
`TestSolver_Solve_Success` (part_015). -/
def fooTerm : Term := ⟨"foo", ⟨"", "", "1.0.0"⟩, false⟩

/-- The single-term incompatibility `{foo 1.0.0}` pre-registered by
`TestSolver_Solve_Success`: a positive term on the root package, hence a
root cause for conflict resolution. -/
def userIncompatibility : Incompatibility := .mk [fooTerm] none

/-- The solver of `TestSolver_Solve_Success` just before `Solve`:
root `foo 1.0.0` with the user incompatibility registered. -/
def testSolver : Solver :=
  { NewSolver "foo" "1.0.0" with incompatibilities := [userIncompatibility] }

/-- The solver state at which the first unit propagation of `testSolver`
scans `userIncompatibility`: the root decision plus the "dependency"
derivation from the root incompatibility (which is scanned first). -/
def conflictState : Solver :=
  ⟨⟨[⟨fooTerm, 0, true, none⟩, depAsgOf "foo" "1.0.0"]⟩,
    [userIncompatibility, rootIncOf "foo" "1.0.0"], "foo", "1.0.0"⟩

/-- Negative term `not bar 1.0.0`, used to build a two-term satisfied
incompatibility that is not a root cause. -/
def barNegTerm : Term := ⟨"bar", ⟨"", "", "1.0.0"⟩, true⟩

/-- A two-term incompatibility `{foo 1.0.0, not bar 1.0.0}`. -/
def pairIncompatibility : Incompatibility := .mk [fooTerm, barNegTerm] none

/-- A state whose trail satisfies both terms of `pairIncompatibility`,
giving a satisfied conflict that is not a root cause. -/
def pairConflictState : Solver :=
  ⟨⟨[⟨fooTerm, 0, true, none⟩, ⟨barNegTerm, 0, false, none⟩]⟩,
    [pairIncompatibility], "foo", "1.0.0"⟩

/-- Positive term `root 1.0.0`. -/
def rootTerm : Term := ⟨"root", ⟨"", "", "1.0.0"⟩, false⟩

/-- The single-term root-cause incompatibility `{root 1.0.0}`. -/
def rootOnlyInc : Incompatibility := .mk [rootTerm] none

/-- Negative term `not foo 2.0.0`. -/
def fooNegTerm : Term := ⟨"foo", ⟨"", "", "2.0.0"⟩, true⟩

/-- An incompatibility older than `rootOnlyInc` in the store, still
relevant after the conflict on `rootOnlyInc` is handled. -/
def olderInc : Incompatibility := .mk [rootTerm, fooNegTerm] none

/-- State for claim C3: the trail holds only the root decision; the store
holds `olderInc` (older) and `rootOnlyInc` (newer), so the newest-first
scan meets the satisfied `rootOnlyInc` first. -/
def c3State : Solver :=
  ⟨⟨[⟨rootTerm, 0, true, none⟩]⟩, [olderInc, rootOnlyInc], "root", "1.0.0"⟩

/-- An unrelated derivation at level 0. -/
def xAsg : Assignment := ⟨⟨"x", ⟨"", "", "1.0.0"⟩, false⟩, 0, false, none⟩

/-- A root decision recorded at decision level 2, so that backtracking to
level 0 removes it. -/
def lateRootAsg : Assignment := ⟨rootTerm, 2, true, none⟩

/-- Witness state for the amended claim C3: resolving the root-cause
conflict `{root 1.0.0}` backtracks the level-2 root assignment away,
leaving the learned incompatibility almost-satisfied. -/
def witnessSolver : Solver := ⟨⟨[xAsg, lateRootAsg]⟩, [], "root", "1.0.0"⟩

/-- Negative term `not b 1.0.0`. -/
def bNegTerm : Term := ⟨"b", ⟨"", "", "1.0.0"⟩, true⟩

/-- Negative term `not c 1.0.0`. -/
def cNegTerm : Term := ⟨"c", ⟨"", "", "1.0.0"⟩, true⟩

/-- Solver for claim C7, used the way the repo's own examples (part_011)
use the API: two incompatibilities registered before `Solve`, so that unit
propagation puts two packages into the `changed` map at once. -/
def exampleSolver : Solver :=
  { NewSolver "root" "1.0.0" with
      incompatibilities := [.mk [rootTerm, bNegTerm] none, .mk [rootTerm, cNegTerm] none] }

/-- Positive term `a 1.0.0`, a pivot term for claim C2. -/
def aTerm : Term := ⟨"a", ⟨"", "", "1.0.0"⟩, false⟩

/-- Positive term `b 1.0.0`. -/
def bTerm : Term := ⟨"b", ⟨"", "", "1.0.0"⟩, false⟩

/-- Positive term `b 2.0.0`, a second term on package `b`. -/
def bTerm2 : Term := ⟨"b", ⟨"", "", "2.0.0"⟩, false⟩

/-- Conflicting incompatibility `{a 1.0.0, b 1.0.0}` for claim C2. -/
def conflictC2 : Incompatibility := .mk [aTerm, bTerm] none

/-- Cause `{a 1.0.0, b 2.0.0}` of the satisfier of claim C2. -/
def causeD2 : Incompatibility := .mk [aTerm, bTerm2] none

/-- A satisfier on package `a` (a derivation) whose cause is `causeD2`. -/
def satisfierA : Assignment := ⟨aTerm, 1, false, some causeD2⟩

/-- Trail for claim C5: one positive decision `foo 1.0.0`. -/
def c5PartialSolution : PartialSolution := ⟨[⟨fooTerm, 0, true, none⟩]⟩

/-- Positive term `foo 2.0.0`, disjoint from the asserted `foo 1.0.0`. -/
def c5Term : Term := ⟨"foo", ⟨"", "", "2.0.0"⟩, false⟩

/-- Assignment at level 0, used by the claim C9 witness. -/
def c9AsgLow : Assignment := ⟨fooTerm, 0, true, none⟩

/-- Assignment at level 2, used by the claim C9 witness. -/
def c9AsgHigh : Assignment := ⟨barNegTerm, 2, false, none⟩

/-! Theorems.  First general lemmas about the satisfaction functions, then
one theorem (plus witness or counterexample where needed) per claim. -/

/-- Function `areCompatible` returns `true` on every input: both branches of the
source are `true`. -/
theorem areCompatible_eq_true (v1 v2 : VersionConstraint) : areCompatible v1 v2 = true := by
  unfold areCompatible
  split <;> rfl

/-- The contradiction scan of `PartialSolution.Satisfies` never finds
anything, because `areCompatible` is constantly `true`. -/
theorem satisfies_contradiction_scan_false (ps : PartialSolution) (term : Term) :
    (ps.Assignments.any (fun assignment =>
      assignment.Term.Package == term.Package &&
        (if assignment.Term.Negated != term.Negated then
          !(areCompatible assignment.Term.Version term.Version)
        else
          !(areCompatible assignment.Term.Version term.Version)))) = false := by
  rw [List.any_eq_false]
  intro a _
  simp [areCompatible_eq_true]

/-- Function `PartialSolution.Satisfies` reduces to the second scan: `Satisfied` if
some same-package same-polarity assignment satisfies the term, otherwise
`Inconclusive`. -/
theorem Satisfies_eq (ps : PartialSolution) (term : Term) :
    ps.Satisfies term =
      (if ps.Assignments.any (fun assignment =>
          assignment.Term.Package == term.Package &&
            assignment.Term.Negated == term.Negated &&
            satisfies assignment.Term.Version term.Version) then
        Satisfied
      else
        Inconclusive) := by
  unfold PartialSolution.Satisfies
  rw [satisfies_contradiction_scan_false]
  simp

/-- Function `satisfies` holds between any constraint and itself. -/
theorem satisfies_self (v : VersionConstraint) : satisfies v v = true := by
  unfold satisfies
  split
  · rfl
  · simp

/-- C1: the claim says that on every conflict handed to `resolveConflict`
during a solve, the call returns a learned incompatibility and truncates
the trail so that the result is almost-satisfied (exactly one inconclusive
term) and immediately derives a new assignment.  The code falsifies this:
in the solve of `TestSolver_Solve_Success` (root `foo 1.0.0` with the
registered incompatibility `{foo 1.0.0}`), the first unit propagation
reaches `conflictState` with `userIncompatibility` satisfied;
`resolveConflict` returns that same incompatibility with the trail
untouched, and the result is not almost-satisfied (its only term is still
Satisfied), so no new assignment is derived. -/
theorem c1_resolveConflict_not_almost_satisfied :
    (testSolver.initializeRootPackage.getIncompatibilitiesForPackage "foo").reverse
        = [rootIncOf "foo" "1.0.0", userIncompatibility]
    ∧ testSolver.initializeRootPackage.propagateScan [] [rootIncOf "foo" "1.0.0"]
        = (conflictState, ["dependency"], none)
    ∧ conflictState.partialSolution.SatisfiesIncompatibility userIncompatibility = Satisfied
    ∧ conflictState.resolveConflict userIncompatibility
        = some (userIncompatibility, conflictState)
    ∧ conflictState.partialSolution.AlmostSatisfies userIncompatibility = none :=
  ⟨rfl, rfl, rfl, rfl, rfl⟩

/-- C2: the claim says `createPriorCause` removes the term of `C` satisfied
by the satisfier and the matching term of the cause, and merges remaining
same-package terms so the result has at most one term per package.  The
code falsifies this: for `C = {a 1.0.0, b 1.0.0}` and a satisfier on `a`
with cause `{a 1.0.0, b 2.0.0}`, the result keeps `a 1.0.0` (the resolved
term) and contains two unmerged terms on package `b`. -/
theorem c2_createPriorCause_keeps_pivot_and_duplicates_package :
    ((NewSolver "r" "1.0.0").createPriorCause conflictC2 satisfierA).Terms
        = [aTerm, bTerm, bTerm2]
    ∧ ((NewSolver "r" "1.0.0").createPriorCause conflictC2 satisfierA).Terms.countP
        (fun t => t.Package == "b") = 2
    ∧ ((NewSolver "r" "1.0.0").createPriorCause conflictC2 satisfierA).Terms.countP
        (fun t => t == aTerm) = 1 :=
  ⟨rfl, rfl, rfl⟩

/-- C3 counterexample: the claim says that after a satisfied
incompatibility is resolved, the `changed` set becomes the singleton of the
package of the term newly derived from the learned incompatibility and the
scan of the remaining incompatibilities is abandoned.  At `c3State` the
newest incompatibility `{root 1.0.0}` is satisfied and conflict resolution
returns it, but nothing is derived from it (`changed` is not replaced) and
the scan continues: the older incompatibility is still processed and
derives `foo 2.0.0` (an assignment whose cause is `olderInc`), leaving
`changed = [foo]`. -/
theorem c3_scan_not_abandoned_after_conflict :
    (c3State.getIncompatibilitiesForPackage "root").reverse = [rootOnlyInc, olderInc]
    ∧ c3State.partialSolution.SatisfiesIncompatibility rootOnlyInc = Satisfied
    ∧ (c3State.resolveConflict rootOnlyInc).isSome = true
    ∧ c3State.propagateScan [] [rootOnlyInc, olderInc]
        = (⟨⟨[⟨rootTerm, 0, true, none⟩,
              ⟨⟨"foo", ⟨"", "", "2.0.0"⟩, false⟩, 0, false, some olderInc⟩]⟩,
            [olderInc, rootOnlyInc], "root", "1.0.0"⟩,
           ["foo"], none) :=
  ⟨rfl, rfl, rfl, rfl⟩

/-- C3 amended: in the satisfied branch, when conflict resolution returns a
learned incompatibility that is almost-satisfied after its backtrack, the
negation of the inconclusive term is derived and `changed` is replaced by
the singleton of its package, but the scan then continues with the
remaining incompatibilities (there is no break). -/
theorem c3_satisfied_branch_continues_scan (s : Solver) (changed : List String)
    (incompatibility : Incompatibility) (rest : List Incompatibility)
    (resolved : Incompatibility) (s1 : Solver) (t : Term)
    (hsat : s.partialSolution.SatisfiesIncompatibility incompatibility = Satisfied)
    (hres : s.resolveConflict incompatibility = some (resolved, s1))
    (halm : s1.partialSolution.AlmostSatisfies resolved = some t) :
    Solver.propagateScan s changed (incompatibility :: rest) =
      Solver.propagateScan
        { s1 with partialSolution := (s1.partialSolution.AddAssignment
            ⟨{ t with Negated := !t.Negated }, s1.partialSolution.GetDecisionLevel, false,
              some resolved⟩) }
        [t.Package] rest := by
  simp only [Solver.propagateScan, hsat, hres, halm]
  rfl

/-- Closed witness for the amended claim C3: at `witnessSolver`, resolving
the root-cause conflict `{root 1.0.0}` backtracks the level-2 root decision
away, the learned incompatibility is almost-satisfied, `not root 1.0.0` is
derived, `changed` becomes `[root]`, and the scan goes on (here with an
empty remainder). -/
theorem c3_satisfied_branch_continues_scan_witness :
    Solver.propagateScan witnessSolver [] [rootOnlyInc] =
      Solver.propagateScan
        ⟨⟨[xAsg, ⟨⟨"root", ⟨"", "", "1.0.0"⟩, true⟩, 0, false, some rootOnlyInc⟩]⟩,
          [], "root", "1.0.0"⟩
        ["root"] [] :=
  c3_satisfied_branch_continues_scan witnessSolver [] rootOnlyInc []
    rootOnlyInc ⟨⟨[xAsg]⟩, [], "root", "1.0.0"⟩ rootTerm rfl rfl rfl

/-- C5: the claim states the spec's set-algebra relation for a positive
term (Satisfied iff the accumulated set is a subset, Contradicted iff
disjoint).  The code falsifies it: with `foo 1.0.0` asserted positively,
the positive term `foo 2.0.0` has accumulated set `{1.0.0}` disjoint from
`{2.0.0}`, so the spec relation is Contradicted, but the code answers
Inconclusive; moreover the code can never answer Contradicted at all, since
its compatibility test is constantly true. -/
theorem c5_satisfies_ignores_version_set_semantics :
    c5PartialSolution.Satisfies c5Term = Inconclusive
    ∧ specPositiveRelation ["1.0.0"] ["2.0.0"] = Contradicted
    ∧ ∀ (ps : PartialSolution) (t : Term),
        ps.Satisfies t = Satisfied ∨ ps.Satisfies t = Inconclusive := by
  refine ⟨rfl, rfl, ?_⟩
  intro ps t
  rw [Satisfies_eq]
  split
  · exact Or.inl rfl
  · exact Or.inr rfl

/-- Every term is counted in exactly one of the three relation buckets. -/
theorem satResult_count_partition (f : Term → SatisfactionResult) (l : List Term) :
    l.countP (fun t => f t == Satisfied) + l.countP (fun t => f t == Contradicted)
      + l.countP (fun t => f t == Inconclusive) = l.length := by
  induction l with
  | nil => rfl
  | cons a l ih =>
    rcases h : f a <;>
      simp only [List.countP_cons, h, List.length_cons] <;> simp <;> omega

/-- If a predicate holds at exactly one position of a list, `find?` returns
the member at which it holds. -/
theorem find?_eq_of_countP_one {α : Type} (p : α → Bool) :
    ∀ (l : List α) (a : α), l.countP p = 1 → a ∈ l → p a = true → l.find? p = some a := by
  intro l
  induction l with
  | nil => intro a _ hm; simp at hm
  | cons b l ih =>
    intro a hcount hmem hpa
    by_cases hb : p b = true
    · rw [List.find?_cons_of_pos _ hb]
      rcases List.mem_cons.mp hmem with h | h
      · rw [h]
      · exfalso
        have h0 : l.countP p = 0 := by
          simp only [List.countP_cons, hb, if_pos] at hcount
          omega
        exact List.countP_eq_zero.mp h0 a h hpa
    · rw [List.find?_cons_of_neg _ hb]
      apply ih
      · simpa [List.countP_cons, hb] using hcount
      · rcases List.mem_cons.mp hmem with h | h
        · exact absurd (h ▸ hpa) hb
        · exact h
      · exact hpa

/-- The satisfied case of `SatisfiesIncompatibility`: all terms
satisfied. -/
theorem SatisfiesIncompatibility_eq_satisfied_iff (ps : PartialSolution)
    (inc : Incompatibility) :
    ps.SatisfiesIncompatibility inc = Satisfied ↔
      ∀ t ∈ inc.Terms, ps.Satisfies t = Satisfied := by
  simp only [PartialSolution.SatisfiesIncompatibility]
  constructor
  · intro h
    by_cases hc : inc.Terms.countP (fun t => ps.Satisfies t == Contradicted) > 0
    · rw [if_pos hc] at h
      exact absurd h (by decide)
    · rw [if_neg hc] at h
      by_cases hs :
          (inc.Terms.countP (fun t => ps.Satisfies t == Satisfied)
            == inc.Terms.length) = true
      · intro t ht
        have hlen := List.countP_eq_length.mp (eq_of_beq hs) t ht
        simpa using hlen
      · rw [if_neg hs] at h
        exact absurd h (by decide)
  · intro h
    have hs : inc.Terms.countP (fun t => ps.Satisfies t == Satisfied) = inc.Terms.length :=
      List.countP_eq_length.mpr (fun t ht => by simp [h t ht])
    have hc : inc.Terms.countP (fun t => ps.Satisfies t == Contradicted) = 0 :=
      List.countP_eq_zero.mpr (fun t ht => by simp [h t ht])
    simp [hs, hc]

/-- The contradicted case of `SatisfiesIncompatibility`: some term
contradicted. -/
theorem SatisfiesIncompatibility_eq_contradicted_iff (ps : PartialSolution)
    (inc : Incompatibility) :
    ps.SatisfiesIncompatibility inc = Contradicted ↔
      ∃ t ∈ inc.Terms, ps.Satisfies t = Contradicted := by
  simp only [PartialSolution.SatisfiesIncompatibility]
  constructor
  · intro h
    by_cases hc : inc.Terms.countP (fun t => ps.Satisfies t == Contradicted) > 0
    · have := List.countP_pos_iff.mp hc
      simpa using this
    · rw [if_neg hc] at h
      split at h <;> exact absurd h (by decide)
  · intro h
    have hc : inc.Terms.countP (fun t => ps.Satisfies t == Contradicted) > 0 :=
      List.countP_pos_iff.mpr (by simpa using h)
    rw [if_pos hc]

/-- The almost-satisfied case of `AlmostSatisfies`: exactly one term
inconclusive, every other term satisfied, and the returned term is the
inconclusive one. -/
theorem AlmostSatisfies_eq_some_iff (ps : PartialSolution) (inc : Incompatibility)
    (t : Term) :
    ps.AlmostSatisfies inc = some t ↔
      (inc.Terms.countP (fun u => ps.Satisfies u == Inconclusive) = 1
        ∧ (∀ u ∈ inc.Terms, ps.Satisfies u = Satisfied ∨ ps.Satisfies u = Inconclusive)
        ∧ t ∈ inc.Terms ∧ ps.Satisfies t = Inconclusive) := by
  have hsum := satResult_count_partition (ps.Satisfies) inc.Terms
  simp only [PartialSolution.AlmostSatisfies]
  constructor
  · intro h
    by_cases hcond :
        ((inc.Terms.countP (fun u => ps.Satisfies u == Satisfied) : Int)
          == (inc.Terms.length : Int) - 1) = true
    · rw [if_pos hcond] at h
      have hint : (inc.Terms.countP (fun u => ps.Satisfies u == Satisfied) : Int)
          = (inc.Terms.length : Int) - 1 := by
        exact_mod_cast eq_of_beq hcond
      have htmem := List.mem_of_find?_eq_some h
      have htinc : ps.Satisfies t = Inconclusive := by
        have := List.find?_some h
        simpa using this
      have hipos : inc.Terms.countP (fun u => ps.Satisfies u == Inconclusive) > 0 :=
        List.countP_pos_iff.mpr ⟨t, htmem, by simp [htinc]⟩
      have hlenpos : 0 < inc.Terms.length := List.length_pos.mpr (by
        intro hnil
        rw [hnil] at htmem
        simp at htmem)
      have hic1 : inc.Terms.countP (fun u => ps.Satisfies u == Inconclusive) = 1 := by
        omega
      have hc0 : inc.Terms.countP (fun u => ps.Satisfies u == Contradicted) = 0 := by
        omega
      refine ⟨hic1, ?_, htmem, htinc⟩
      intro u hu
      rcases hres : ps.Satisfies u with _ | _ | _
      · exact Or.inr rfl
      · exact Or.inl rfl
      · exact absurd hres (by
          have := List.countP_eq_zero.mp hc0 u hu
          simpa using this)
    · rw [if_neg hcond] at h
      exact absurd h (by simp)
  · rintro ⟨hic1, hall, htmem, htinc⟩
    have hc0 : inc.Terms.countP (fun u => ps.Satisfies u == Contradicted) = 0 :=
      List.countP_eq_zero.mpr (fun u hu => by
        rcases hall u hu with h | h <;> simp [h])
    have hcond :
        ((inc.Terms.countP (fun u => ps.Satisfies u == Satisfied) : Int)
          == (inc.Terms.length : Int) - 1) = true := by
      have : inc.Terms.countP (fun u => ps.Satisfies u == Satisfied) + 1
          = inc.Terms.length := by omega
      simp only [beq_iff_eq]
      omega
    rw [if_pos hcond]
    exact find?_eq_of_countP_one _ inc.Terms t hic1 htmem (by simp [htinc])

/-- C4: for every incompatibility and partial solution, the relation is
Satisfied iff every term is Satisfied, Contradicted iff some term is
Contradicted, and almost-satisfied (with the unique inconclusive term
returned) iff exactly one term is Inconclusive and every other term is
Satisfied. -/
theorem c4_incompatibility_relation_characterization (ps : PartialSolution)
    (inc : Incompatibility) :
    (ps.SatisfiesIncompatibility inc = Satisfied ↔
      ∀ t ∈ inc.Terms, ps.Satisfies t = Satisfied)
    ∧ (ps.SatisfiesIncompatibility inc = Contradicted ↔
      ∃ t ∈ inc.Terms, ps.Satisfies t = Contradicted)
    ∧ ∀ t : Term, ps.AlmostSatisfies inc = some t ↔
      (inc.Terms.countP (fun u => ps.Satisfies u == Inconclusive) = 1
        ∧ (∀ u ∈ inc.Terms, ps.Satisfies u = Satisfied ∨ ps.Satisfies u = Inconclusive)
        ∧ t ∈ inc.Terms ∧ ps.Satisfies t = Inconclusive) :=
  ⟨SatisfiesIncompatibility_eq_satisfied_iff ps inc,
    SatisfiesIncompatibility_eq_contradicted_iff ps inc,
    fun t => AlmostSatisfies_eq_some_iff ps inc t⟩

/-- Closed instance of claim C4 at a concrete state: at `conflictState`
the root incompatibility is inconclusive but almost-satisfied on its
"dependency" term. -/
theorem c4_incompatibility_relation_characterization_witness :
    conflictState.partialSolution.SatisfiesIncompatibility userIncompatibility = Satisfied ↔
      ∀ t ∈ userIncompatibility.Terms,
        conflictState.partialSolution.Satisfies t = Satisfied :=
  (c4_incompatibility_relation_characterization conflictState.partialSolution
    userIncompatibility).1

/-- C6: the claim says that when conflict resolution reaches a root-cause
incompatibility (no terms, or a single positive root term) the solve fails
at the top level.  The code does the opposite: at `conflictState` the
root-cause conflict `{foo 1.0.0}` makes `resolveConflict` return the
incompatibility (no failure is signalled and propagation carries on), while
at `pairConflictState` a satisfied incompatibility that is not a root cause
makes `resolveConflict` return nil, which is what unit propagation reports
as the failure of version solving. -/
theorem c6_root_cause_does_not_fail_solve :
    conflictState.isRootCause userIncompatibility = true
    ∧ (conflictState.resolveConflict userIncompatibility).isSome = true
    ∧ (conflictState.propagateScan [] [userIncompatibility]).2.2 = none
    ∧ pairConflictState.partialSolution.SatisfiesIncompatibility pairIncompatibility
        = Satisfied
    ∧ pairConflictState.isRootCause pairIncompatibility = false
    ∧ pairConflictState.resolveConflict pairIncompatibility = none
    ∧ (pairConflictState.propagateScan [] [pairIncompatibility]).2.2
        = some pairIncompatibility :=
  ⟨rfl, rfl, rfl, rfl, rfl, rfl, rfl⟩

/-- C9: `Backtrack` truncates the trail to end at the most recent
assignment whose decision level is at or below the requested level: the
kept part is a prefix of the trail, everything removed is a suffix whose
assignments all have higher levels, and the last kept assignment (when one
exists) has level at or below the requested level. -/
theorem c9_backtrack_truncates_to_last_at_or_below_level (level : Int)
    (l : List Assignment) :
    (∃ dropped : List Assignment,
      l = (PartialSolution.Backtrack ⟨l⟩ level).Assignments ++ dropped
        ∧ ∀ a ∈ dropped, level < a.DecisionLevel)
    ∧ ∀ a : Assignment,
        (PartialSolution.Backtrack ⟨l⟩ level).Assignments.getLast? = some a →
          a.DecisionLevel ≤ level := by
  constructor
  · refine ⟨(l.reverse.takeWhile (fun a => decide (level < a.DecisionLevel))).reverse, ?_, ?_⟩
    · simp only [PartialSolution.Backtrack]
      conv_lhs =>
        rw [← l.reverse_reverse,
          ← List.takeWhile_append_dropWhile
            (p := fun a => decide (level < a.DecisionLevel)) (l := l.reverse)]
      rw [List.reverse_append]
    · intro a ha
      have hp := List.mem_takeWhile_imp (List.mem_reverse.mp ha)
      simpa using hp
  · intro a ha
    simp only [PartialSolution.Backtrack] at ha
    rw [List.getLast?_reverse] at ha
    have hd := List.head?_dropWhile_not
      (fun a => decide (level < a.DecisionLevel)) l.reverse
    rw [ha] at hd
    have hnot : ¬ level < a.DecisionLevel := by simpa using hd
    omega

/-- Closed witness for claim C9: backtracking `[level 0, level 2]` to level
0 keeps exactly the level-0 assignment, whose level is at most 0. -/
theorem c9_backtrack_truncates_witness : c9AsgLow.DecisionLevel ≤ 0 :=
  (c9_backtrack_truncates_to_last_at_or_below_level 0 [c9AsgLow, c9AsgHigh]).2 c9AsgLow rfl

/-- C10: `findMatchingVersion` never returns the empty string (a specific
constraint returns its version, anything else returns "1.0.0"), so the
no-matching-version branch of `DecisionMaking` — the branch that would
register the single-term incompatibility and return without a decision —
is unreachable in every solver state. -/
theorem c10_findMatchingVersion_nonempty_branch_unreachable :
    (∀ (s : Solver) (pkg : String) (t : Term),
      (s.findMatchingVersion pkg t == "") = false)
    ∧ ∀ s : Solver, s.decisionNoMatchBranch = false := by
  have key : ∀ (s : Solver) (pkg : String) (t : Term),
      (s.findMatchingVersion pkg t == "") = false := by
    intro s pkg t
    unfold Solver.findMatchingVersion
    split
    · rename_i h
      simp only [VersionConstraint.IsSpecific] at h
      simpa using h
    · rfl
  refine ⟨key, ?_⟩
  intro s
  simp only [Solver.decisionNoMatchBranch]
  split
  · rfl
  · split
    · rfl
    · exact key _ _ _

/-- C7 counterexample: the claim says identical inputs give identical
trails.  On `exampleSolver` (two pre-registered incompatibilities, the way
the repo's own examples drive the API) the `changed` map holds three
packages after the first propagation step; two legal map iteration orders
(oracle always-first versus always-third) produce different trails after
the same amount of work. -/
theorem c7_map_order_changes_trail :
    ((exampleSolver.Solve (fun _ _ => 0) 2 1).1.partialSolution.Assignments.map
        (fun a => a.Term.Package))
      = ["root", "dependency", "c", "b", "dependency"]
    ∧ ((exampleSolver.Solve (fun _ _ => 2) 2 1).1.partialSolution.Assignments.map
        (fun a => a.Term.Package))
      = ["root", "dependency", "c", "b", "b"]
    ∧ ((["root", "dependency", "c", "b", "dependency"] : List String)
        == ["root", "dependency", "c", "b", "b"]) = false :=
  ⟨rfl, rfl, rfl⟩

/-- The trail of a plain solve always ends at decision level 0. -/
theorem plain_getLevel (root rv : String) (n : Nat) :
    (plainState root rv n).partialSolution.GetDecisionLevel = 0 := by
  cases n with
  | zero => rfl
  | succ m =>
    simp only [plainState, PartialSolution.GetDecisionLevel]
    rw [List.replicate_succ', ← List.cons_append, List.getLast?_concat]
    rfl

/-- In a plain solve state, the root term of the root incompatibility is
satisfied by the root decision. -/
theorem plain_sat_root (root rv : String) (n : Nat) :
    (plainState root rv n).partialSolution.Satisfies ⟨root, ⟨"", "", rv⟩, false⟩
      = Satisfied := by
  rw [Satisfies_eq]
  simp [plainState, rootAsgOf, satisfies_self]

/-- In a plain solve state, the negative "dependency" term is inconclusive:
every trail assignment on that package is positive. -/
theorem plain_sat_dep (root rv : String) (n : Nat) :
    (plainState root rv n).partialSolution.Satisfies dependencyTerm = Inconclusive := by
  rw [Satisfies_eq]
  simp [plainState, rootAsgOf, depAsgOf, dependencyTerm]

/-- In a plain solve state, the root incompatibility is inconclusive. -/
theorem plain_relation (root rv : String) (n : Nat) :
    (plainState root rv n).partialSolution.SatisfiesIncompatibility (rootIncOf root rv)
      = Inconclusive := by
  simp only [PartialSolution.SatisfiesIncompatibility, rootIncOf, Incompatibility.Terms]
  simp [List.countP_cons, plain_sat_root, plain_sat_dep]

/-- In a plain solve state, the root incompatibility is almost-satisfied on
the "dependency" term. -/
theorem plain_almost (root rv : String) (n : Nat) :
    (plainState root rv n).partialSolution.AlmostSatisfies (rootIncOf root rv)
      = some dependencyTerm := by
  simp only [PartialSolution.AlmostSatisfies, rootIncOf, Incompatibility.Terms]
  simp [List.countP_cons, plain_sat_root, plain_sat_dep]

/-- In a plain solve state, both the root package and "dependency" index to
exactly the root incompatibility. -/
theorem plain_getIncs (root rv : String) (n : Nat) (p : String)
    (hp : p = root ∨ p = "dependency") :
    (plainState root rv n).getIncompatibilitiesForPackage p = [rootIncOf root rv] := by
  unfold Solver.getIncompatibilitiesForPackage
  rcases hp with h | h <;> subst h <;>
    simp [plainState, rootIncOf, Incompatibility.Terms, dependencyTerm]

/-- One inner scan of a plain solve state: derive the positive
"dependency" assignment and put "dependency" into `changed`. -/
theorem plain_scan (root rv : String) (n : Nat) :
    Solver.propagateScan (plainState root rv n) [] [rootIncOf root rv]
      = (plainState root rv (n + 1), ["dependency"], none) := by
  simp only [Solver.propagateScan, plain_relation, plain_almost, plain_getLevel]
  rw [if_neg (by decide), if_pos (by decide)]
  show ((⟨⟨rootAsgOf root rv :: (List.replicate n (depAsgOf root rv) ++ [depAsgOf root rv])⟩,
      [rootIncOf root rv], root, rv⟩ : Solver), ["dependency"],
      (none : Option Incompatibility))
    = (plainState root rv (n + 1), ["dependency"], none)
  rw [← List.replicate_succ']
  rfl

/-- Every outer iteration of a plain solve's unit propagation appends one
"dependency" derivation, independently of the oracle and its step
counter. -/
theorem plain_uploop (root rv : String) :
    ∀ (fuel : Nat) (choose : Nat → Nat) (k n : Nat) (p : String),
      (p = root ∨ p = "dependency") →
      Solver.unitPropagationLoop choose fuel k (plainState root rv n) [p]
        = (plainState root rv (n + fuel), none) := by
  intro fuel
  induction fuel with
  | zero =>
    intro choose k n p _
    simp [Solver.unitPropagationLoop]
  | succ m ih =>
    intro choose k n p hp
    simp only [Solver.unitPropagationLoop, List.length_cons, List.length_nil,
      Nat.zero_add, Nat.mod_one, List.getD_cons_zero, List.eraseIdx_cons_zero]
    rw [plain_getIncs root rv n p hp]
    simp only [List.reverse_cons, List.reverse_nil, List.nil_append]
    rw [plain_scan]
    show Solver.unitPropagationLoop choose m (k + 1) (plainState root rv (n + 1)) ["dependency"]
      = (plainState root rv (n + (m + 1)), none)
    rw [ih choose (k + 1) (n + 1) "dependency" (Or.inr rfl)]
    have harith : n + 1 + m = n + (m + 1) := by omega
    rw [harith]

/-- C7 amended: a plain solve (fresh solver, no pre-registered
incompatibilities) is oracle-independent — the `changed` map never holds
more than one package, so Go's map iteration order cannot influence the
run, and any two runs with the same root package, root version and fuel
produce identical states (hence identical trails). -/
theorem c7_plain_solve_oracle_independent (choose1 choose2 : Nat → Nat → Nat)
    (upFuel fuel : Nat) (root rv : String) :
    (NewSolver root rv).Solve choose1 upFuel fuel
      = (NewSolver root rv).Solve choose2 upFuel fuel := by
  have hinit : (NewSolver root rv).initializeRootPackage = plainState root rv 0 := rfl
  unfold Solver.Solve
  rw [hinit]
  cases fuel with
  | zero => rfl
  | succ m =>
    simp only [Solver.solveLoop, Solver.UnitPropagation, NewSolver]
    rw [plain_uploop root rv upFuel (choose1 0) 0 0 root (Or.inl rfl),
        plain_uploop root rv upFuel (choose2 0) 0 0 root (Or.inl rfl)]

/-- Appending a non-decision assignment preserves the one-decision-per-
package invariant. -/
theorem AtMostOneDecision_add_nondecision (ps : PartialSolution) (a : Assignment)
    (h : AtMostOneDecision ps) (ha : a.IsDecision = false) :
    AtMostOneDecision (ps.AddAssignment a) := by
  intro p
  simp only [PartialSolution.AddAssignment]
  rw [List.countP_append]
  have hz : List.countP (fun x => x.IsDecision && x.Term.Package == p) [a] = 0 := by
    simp [List.countP_cons, ha]
  rw [hz]
  simpa using h p

/-- Backtracking keeps a sublist of the trail, so it preserves the
invariant. -/
theorem AtMostOneDecision_backtrack (ps : PartialSolution) (level : Int)
    (h : AtMostOneDecision ps) : AtMostOneDecision (ps.Backtrack level) := by
  intro p
  have h1 : List.Sublist
      (ps.Assignments.reverse.dropWhile (fun a => decide (level < a.DecisionLevel)))
      ps.Assignments.reverse := List.dropWhile_sublist _
  have h2 := h1.reverse
  rw [List.reverse_reverse] at h2
  exact le_trans (h2.countP_le _) (h p)

/-- Method `resolveConflict` either fails or returns the incompatibility together
with the state backtracked to level 0. -/
theorem resolveConflict_state (s : Solver) (c : Incompatibility) :
    s.resolveConflict c = none
    ∨ s.resolveConflict c
        = some (c, { s with partialSolution := s.partialSolution.Backtrack 0 }) := by
  unfold Solver.resolveConflict Solver.resolveConflictLoop
  have hfs : s.findSatisfier c = none := by
    simp [Solver.findSatisfier, Solver.assignmentSatisfiesIncompatibility]
  rw [hfs]
  split
  · exact Or.inr rfl
  · exact Or.inl rfl

/-- The inner propagation scan only appends non-decision assignments and
backtracks, so it preserves the invariant. -/
theorem propagateScan_preserves (incs : List Incompatibility) :
    ∀ (s : Solver) (changed : List String),
      AtMostOneDecision s.partialSolution →
      AtMostOneDecision (Solver.propagateScan s changed incs).1.partialSolution := by
  induction incs with
  | nil =>
    intro s changed h
    simpa [Solver.propagateScan] using h
  | cons inc rest ih =>
    intro s changed h
    have hcont : ∀ (sB : Solver) (r : Incompatibility) (ch0 : List String)
        (chf : String → List String),
        AtMostOneDecision sB.partialSolution →
        AtMostOneDecision
          ((match sB.partialSolution.AlmostSatisfies r with
            | none => Solver.propagateScan sB ch0 rest
            | some t =>
                Solver.propagateScan
                  { sB with partialSolution := (sB.partialSolution.AddAssignment
                      ⟨{ t with Negated := !t.Negated },
                        sB.partialSolution.GetDecisionLevel, false, some r⟩) }
                  (chf t.Package) rest)).1.partialSolution := by
      intro sB r ch0 chf hB
      cases sB.partialSolution.AlmostSatisfies r with
      | none => exact ih _ _ hB
      | some t => exact ih _ _ (AtMostOneDecision_add_nondecision _ _ hB rfl)
    simp only [Solver.propagateScan]
    split
    · rcases resolveConflict_state s inc with hres | hres <;> rw [hres]
      · simpa using h
      · exact hcont _ inc changed (fun x => [x]) (AtMostOneDecision_backtrack _ _ h)
    · split
      · exact hcont s inc changed (fun x => insertChanged changed x) h
      · exact ih _ _ h

/-- The unit propagation worklist loop preserves the invariant. -/
theorem unitPropagationLoop_preserves (choose : Nat → Nat) :
    ∀ (fuel k : Nat) (s : Solver) (changed : List String),
      AtMostOneDecision s.partialSolution →
      AtMostOneDecision
        (Solver.unitPropagationLoop choose fuel k s changed).1.partialSolution := by
  intro fuel
  induction fuel with
  | zero =>
    intro k s changed h
    simpa [Solver.unitPropagationLoop] using h
  | succ m ih =>
    intro k s changed h
    cases changed with
    | nil => simpa [Solver.unitPropagationLoop] using h
    | cons c cs =>
      simp only [Solver.unitPropagationLoop]
      have key : ∀ res : Solver × List String × Option Incompatibility,
          AtMostOneDecision res.1.partialSolution →
          AtMostOneDecision
            (match res with
              | (s1, _, some conflict) =>
                  (s1, some (⟨false, some conflict⟩ : UnitPropagationResult))
              | (s1, changed2, none) =>
                  Solver.unitPropagationLoop choose m (k + 1) s1 changed2).1.partialSolution := by
        rintro ⟨s1, ch2, cf⟩ hres
        cases cf
        · exact ih (k + 1) s1 ch2 hres
        · simpa using hres
      exact key _ (propagateScan_preserves _ _ _ h)

/-- The package chosen for a decision has no decision on the trail yet. -/
theorem findPackageForDecision_spec (s : Solver) (p : String)
    (hp : s.findPackageForDecision = p) (hne : (p == "") = false) :
    s.partialSolution.Assignments.countP
      (fun a => a.IsDecision && a.Term.Package == p) = 0 := by
  unfold Solver.findPackageForDecision at hp
  cases hfind : s.partialSolution.Assignments.find? (fun assignment =>
      !assignment.IsDecision && !assignment.Term.Negated &&
        !(s.partialSolution.Assignments.any (fun other =>
            other.IsDecision && other.Term.Package == assignment.Term.Package))) with
  | none =>
    rw [hfind] at hp
    have hp2 : "" = p := hp
    subst hp2
    simp at hne
  | some a =>
    rw [hfind] at hp
    have hp2 : a.Term.Package = p := hp
    have hpred := List.find?_some hfind
    simp only [Bool.and_eq_true, Bool.not_eq_true'] at hpred
    obtain ⟨-, hany⟩ := hpred
    rw [List.countP_eq_zero]
    intro x hx hcontra
    simp only [Bool.and_eq_true, beq_iff_eq] at hcontra
    have hwit : s.partialSolution.Assignments.any (fun other =>
        other.IsDecision && other.Term.Package == a.Term.Package) = true := by
      rw [List.any_eq_true]
      refine ⟨x, hx, ?_⟩
      simp [hcontra.1, hcontra.2, hp2]
    rw [hwit] at hany
    simp at hany

/-- Decision making preserves the invariant: the only decision it appends
is for a package that the chooser certified to have no decision yet. -/
theorem decisionMaking_preserves (s : Solver) (h : AtMostOneDecision s.partialSolution) :
    AtMostOneDecision (s.DecisionMaking).1.partialSolution := by
  simp only [Solver.DecisionMaking]
  split
  · exact h
  · rename_i hne
    split
    · exact h
    · split
      · exact h
      · intro p
        simp only [Solver.addDependenciesForVersion, PartialSolution.AddAssignment,
          List.countP_append, List.countP_cons, List.countP_nil]
        by_cases hpq : s.findPackageForDecision = p
        · subst hpq
          have hne2 : (s.findPackageForDecision == "") = false := by simpa using hne
          rw [findPackageForDecision_spec s _ rfl hne2]
          simp
        · have hb : (s.findPackageForDecision == p) = false :=
            beq_eq_false_iff_ne.mpr hpq
          simp only [hb, Bool.and_false, if_false, Bool.true_and]
          simpa using h p

/-- Root initialization of a fresh solver yields a single-decision
trail. -/
theorem initialize_amod (s : Solver) (hnil : s.partialSolution.Assignments = []) :
    AtMostOneDecision (s.initializeRootPackage).partialSolution := by
  intro p
  simp only [Solver.initializeRootPackage, Solver.addRootIncompatibilities,
    PartialSolution.AddAssignment, hnil, List.nil_append]
  exact le_trans (List.countP_le_length _) (by simp)

/-- The main solve loop preserves the invariant. -/
theorem solveLoop_preserves (choose : Nat → Nat → Nat) (upFuel : Nat) :
    ∀ (fuel iter : Nat) (s : Solver) (next : String),
      AtMostOneDecision s.partialSolution →
      AtMostOneDecision
        (Solver.solveLoop choose upFuel fuel iter s next).1.partialSolution := by
  intro fuel
  induction fuel with
  | zero =>
    intro iter s next h
    simpa [Solver.solveLoop] using h
  | succ m ih =>
    intro iter s next h
    simp only [Solver.solveLoop, Solver.UnitPropagation]
    have key : ∀ res : Solver × Option UnitPropagationResult,
        AtMostOneDecision res.1.partialSolution →
        AtMostOneDecision
          (match res with
            | (s1, none) => (s1, none)
            | (s1, some result) =>
              if result.Success then
                match s1.DecisionMaking with
                | (s2, decisionResult) =>
                  if decisionResult.Success then (s2, some (some s2.partialSolution))
                  else if decisionResult.Error != "" then (s2, some none)
                  else Solver.solveLoop choose upFuel m (iter + 1) s2
                    decisionResult.NextPackage
              else
                (s1, some none)).1.partialSolution := by
      rintro ⟨s1, r⟩ hres
      cases r with
      | none => simpa using hres
      | some result =>
        have hdm := decisionMaking_preserves s1 hres
        show AtMostOneDecision
          ((if result.Success then
              match s1.DecisionMaking with
              | (s2, decisionResult) =>
                if decisionResult.Success then (s2, some (some s2.partialSolution))
                else if decisionResult.Error != "" then (s2, some none)
                else Solver.solveLoop choose upFuel m (iter + 1) s2 decisionResult.NextPackage
            else
              ((s1, some none) :
                Solver × Option (Option PartialSolution)))).1.partialSolution
        by_cases hsucc : result.Success = true
        · rw [if_pos hsucc]
          rcases hdmk : s1.DecisionMaking with ⟨s2, dr⟩
          rw [hdmk] at hdm
          by_cases hds : dr.Success = true
          · simpa [hds] using hdm
          · by_cases herr : (dr.Error != "") = true
            · simpa [hds, herr] using hdm
            · simpa [hds, herr] using ih (iter + 1) s2 dr.NextPackage hdm
        · rw [if_neg hsucc]
          simpa using hres
    exact key _ (unitPropagationLoop_preserves (choose iter) upFuel 0 s [next] h)

/-- C8: at every point of every solve (any oracle, any fuel, any root
package and version, any pre-registered incompatibilities) the trail holds
at most one decision per package. -/
theorem c8_at_most_one_decision_per_package (choose : Nat → Nat → Nat)
    (upFuel fuel : Nat) (root rv : String) (incs : List Incompatibility) :
    AtMostOneDecision
      (Solver.Solve { NewSolver root rv with incompatibilities := incs }
        choose upFuel fuel).1.partialSolution := by
  unfold Solver.Solve
  apply solveLoop_preserves
  apply initialize_amod
  rfl

end Zephyr
